import Mathlib

/-!
Verification of the `codesummariser` repository against its specification.

The Python sources are shallowly embedded:
* `filesummary.py` — the `FileSummary` dataclass and its chunked SHA-256
  `hash_file` method (SHA-256 itself models `hashlib.sha256`);
* `io.py` — CSV persistence (`read_code_summary_csv`,
  `safe_write_code_summary_csv`, `write_summary_csv`) over a model of the
  Python `csv` module's excel dialect, including the universal-newline
  translation performed by `open()` without `newline=""`;
* `config.py` — the extension-to-language table;
* `summarise.py` — `get_text_splitter`, `check_cost` and the caching loop of
  `get_summaries` (the external LLM call is a parameter of the model).

Files are modelled as strings / byte lists; the file system as total maps
from path strings; machine words as `Nat` with explicit `% 2^32`.
-/

namespace CodeSummariser

/-! ## SHA-256, a model of Python's `hashlib.sha256`

Bytes are `Nat` values below 256; 32-bit words are `Nat` values below
`M32 = 2^32`, with wraparound written explicitly. -/

/-- The 32-bit word modulus `2^32`. -/
def M32 : Nat := 4294967296

/-- Right rotation of a 32-bit word by `n` places. -/
def rotr (n x : Nat) : Nat := (x / 2 ^ n + x % 2 ^ n * 2 ^ (32 - n)) % M32

/-- Logical right shift of a 32-bit word. -/
def shr (n x : Nat) : Nat := x / 2 ^ n

/-- Bitwise complement on 32 bits (valid for `x < 2^32`). -/
def not32 (x : Nat) : Nat := 4294967295 - x

/-- SHA-256 `Ch` function. -/
def ch (x y z : Nat) : Nat := (x &&& y) ^^^ (not32 x &&& z)

/-- SHA-256 `Maj` function. -/
def maj (x y z : Nat) : Nat := (x &&& y) ^^^ (x &&& z) ^^^ (y &&& z)

/-- SHA-256 small sigma 0. -/
def sig0 (x : Nat) : Nat := rotr 7 x ^^^ rotr 18 x ^^^ shr 3 x

/-- SHA-256 small sigma 1. -/
def sig1 (x : Nat) : Nat := rotr 17 x ^^^ rotr 19 x ^^^ shr 10 x

/-- SHA-256 big sigma 0. -/
def bigSig0 (x : Nat) : Nat := rotr 2 x ^^^ rotr 13 x ^^^ rotr 22 x

/-- SHA-256 big sigma 1. -/
def bigSig1 (x : Nat) : Nat := rotr 6 x ^^^ rotr 11 x ^^^ rotr 25 x

/-- The 64 SHA-256 round constants. -/
def K256 : List Nat :=
  [1116352408, 1899447441, 3049323471, 3921009573, 961987163,
   1508970993, 2453635748, 2870763221, 3624381080, 310598401,
   607225278, 1426881987, 1925078388, 2162078206, 2614888103,
   3248222580, 3835390401, 4022224774, 264347078, 604807628,
   770255983, 1249150122, 1555081692, 1996064986, 2554220882,
   2821834349, 2952996808, 3210313671, 3336571891, 3584528711,
   113926993, 338241895, 666307205, 773529912, 1294757372,
   1396182291, 1695183700, 1986661051, 2177026350, 2456956037,
   2730485921, 2820302411, 3259730800, 3345764771, 3516065817,
   3600352804, 4094571909, 275423344, 430227734, 506948616,
   659060556, 883997877, 958139571, 1322822218, 1537002063,
   1747873779, 1955562222, 2024104815, 2227730452, 2361852424,
   2428436474, 2756734187, 3204031479, 3329325298]

/-- Big-endian 8-byte encoding of the message bit length. -/
def padLenBytes (n : Nat) : List Nat :=
  let b := n * 8
  [b / 2 ^ 56 % 256, b / 2 ^ 48 % 256, b / 2 ^ 40 % 256, b / 2 ^ 32 % 256,
   b / 2 ^ 24 % 256, b / 2 ^ 16 % 256, b / 2 ^ 8 % 256, b % 256]

/-- SHA-256 message padding: a `0x80` byte, zeros to 56 mod 64, then the
bit length. -/
def sha256pad (msg : List Nat) : List Nat :=
  msg ++ 128 :: (List.replicate ((119 - msg.length % 64) % 64) 0 ++ padLenBytes msg.length)

/-- Split a byte list into successive 64-byte blocks; structural recursion
on a fuel bound so that the kernel can evaluate it (`l.length` iterations
always suffice, each one consumes at least one byte). -/
def toBlocksAux : Nat → List Nat → List (List Nat)
  | 0, _ => []
  | _, [] => []
  | fuel + 1, a :: l => ((a :: l).take 64) :: toBlocksAux fuel ((a :: l).drop 64)

/-- Split a byte list into successive 64-byte blocks. -/
def toBlocks (l : List Nat) : List (List Nat) := toBlocksAux l.length l

/-- Big-endian 32-bit words of a block of bytes. -/
def toWords : List Nat → List Nat
  | a :: b :: c :: d :: rest => (((a * 256 + b) * 256 + c) * 256 + d) :: toWords rest
  | _ => []

/-- Extend the 16 message words of a block to the 64-entry schedule. -/
def extendSchedule (ws : List Nat) : List Nat :=
  (List.range 48).foldl
    (fun acc _ =>
      let n := acc.length
      acc ++ [(sig1 (acc.getD (n - 2) 0) + acc.getD (n - 7) 0 +
               sig0 (acc.getD (n - 15) 0) + acc.getD (n - 16) 0) % M32])
    ws

/-- The eight 32-bit words of a SHA-256 state. -/
structure Hash8 where
  ha : Nat
  hb : Nat
  hc : Nat
  hd : Nat
  he : Nat
  hf : Nat
  hg : Nat
  hh : Nat
deriving DecidableEq, Repr

/-- One SHA-256 round, applied to state `st` with constant/word pair `kw`. -/
def shaRound (st : Hash8) (kw : Nat × Nat) : Hash8 :=
  let t1 := (st.hh + bigSig1 st.he + ch st.he st.hf st.hg + kw.1 + kw.2) % M32
  let t2 := (bigSig0 st.ha + maj st.ha st.hb st.hc) % M32
  ⟨(t1 + t2) % M32, st.ha, st.hb, st.hc, (st.hd + t1) % M32, st.he, st.hf, st.hg⟩

/-- Compress one 64-byte block into the running state. -/
def shaCompress (st : Hash8) (block : List Nat) : Hash8 :=
  let ws := extendSchedule (toWords block)
  let r := (K256.zip ws).foldl shaRound st
  ⟨(st.ha + r.ha) % M32, (st.hb + r.hb) % M32, (st.hc + r.hc) % M32,
   (st.hd + r.hd) % M32, (st.he + r.he) % M32, (st.hf + r.hf) % M32,
   (st.hg + r.hg) % M32, (st.hh + r.hh) % M32⟩

/-- The SHA-256 initial state. -/
def sha256init : Hash8 :=
  ⟨1779033703, 3144134277, 1013904242, 2773480762,
   1359893119, 2600822924, 528734635, 1541459225⟩

/-- Lower-case hex digit for a value below 16. -/
def hexDigit (n : Nat) : Char := if n < 10 then Char.ofNat (48 + n) else Char.ofNat (87 + n)

/-- Eight lower-case hex digits of a 32-bit word. -/
def wordHex (w : Nat) : List Char :=
  [hexDigit (w / 16 ^ 7 % 16), hexDigit (w / 16 ^ 6 % 16), hexDigit (w / 16 ^ 5 % 16),
   hexDigit (w / 16 ^ 4 % 16), hexDigit (w / 16 ^ 3 % 16), hexDigit (w / 16 ^ 2 % 16),
   hexDigit (w / 16 % 16), hexDigit (w % 16)]

/-- `hashlib.sha256(bytes(msg)).hexdigest()`. -/
def sha256hex (msg : List Nat) : String :=
  let f := (toBlocks (sha256pad msg)).foldl shaCompress sha256init
  ⟨wordHex f.ha ++ wordHex f.hb ++ wordHex f.hc ++ wordHex f.hd ++
   wordHex f.he ++ wordHex f.hf ++ wordHex f.hg ++ wordHex f.hh⟩

/-! ## `filesummary.py` -/

/-- The `FileSummary` dataclass: a path (modelled as its normalised string
form, since `str ∘ Path` is the identity on such strings), a summary and a
content hash. -/
structure FileSummary where
  path : String
  summary : String
  contents_hash : String
deriving DecidableEq, Repr

/-- `FileSummary.field_names()`. -/
def fieldNames : List String := ["path", "summary", "contents_hash"]

/-- `FileSummary.__iter__`: the CSV row of a summary,
`[str(path), summary, contents_hash]`. -/
def rowOf (s : FileSummary) : List String := [s.path, s.summary, s.contents_hash]

/-- The block-read loop of `FileSummary.hash_file`: repeatedly read
`blockSize` bytes and feed them to the hasher (an incremental `update` is
appending to the hashed message) until a read returns no bytes.  Structural
recursion on a fuel bound so the kernel can evaluate it; `rest.length + 1`
iterations always suffice since each productive iteration consumes at least
one byte. -/
def hashLoopAux : Nat → Nat → List Nat → List Nat → List Nat
  | 0, _, _, acc => acc
  | fuel + 1, blockSize, rest, acc =>
    let buf := rest.take blockSize
    if buf.length = 0 then acc
    else hashLoopAux fuel blockSize (rest.drop blockSize) (acc ++ buf)

/-- `FileSummary.hash_file(block_size)` on a file whose bytes are `bytes`. -/
def hash_file (bytes : List Nat) (blockSize : Nat) : String :=
  sha256hex (hashLoopAux (bytes.length + 1) blockSize bytes [])

/-- `FileSummary(path, summary, contents_hash)` construction including
`__post_init__`: an empty (falsy) hash is replaced by `hash_file()` with the
default block size 65536, computed from the file's current bytes. -/
def mkFileSummary (path summary contents_hash : String) (bytes : List Nat) : FileSummary :=
  ⟨path, summary, if contents_hash = "" then hash_file bytes 65536 else contents_hash⟩

/-- The Python exceptions the embedded code can raise. -/
inductive PyErr
  | indexError
  | stopIteration
  | valueErrorColumns (fileCols newCols : List String)
  | valueErrorUnpack
  | valueErrorUnknownExt (ext : String)
  | valueErrorSuffix
  | keyError (k : String)
  | fileNotFoundError
deriving DecidableEq, Repr

/-! ## `config.py` -/

/-- The `EXT_MAP` table of `config.py` (a Python dict with distinct keys,
modelled as an association list). -/
def EXT_MAP : List (String × String) :=
  [(".sas", "sas"), (".R", "R"), (".sql", "sql"),
   (".py", "python"), (".cpp", "cpp"), (".go", "go"), (".java", "java"),
   (".js", "javascript"), (".php", "php"), (".rb", "ruby"),
   (".scala", "scala"), (".md", "markdown"), (".swift", "swift"),
   (".html", "html")]

/-- Python `d[k]` / `k in d` for a dict modelled as an association list
with distinct keys. -/
def dictGet (d : List (String × String)) (k : String) : Option String :=
  (d.find? (fun p => p.1 = k)).map (fun p => p.2)

/-! ## `summarise.py`: `get_text_splitter` -/

/-- The result of `get_text_splitter`: either a
`RecursiveCharacterTextSplitter(separators=...)` built from an explicit
delimiter list, or `RecursiveCharacterTextSplitter.from_language(lang)`
(the library object is represented by its defining data; the `**kwargs`
chunk-size configuration does not affect which splitter is chosen). -/
inductive Splitter
  | chars (separators : List String)
  | language (lang : String)
deriving DecidableEq, Repr

/-- The generic line separators shared by the special cases. -/
def lineSeparators : List String := ["\n\n", "\n", " ", ""]

/-- The hard-coded `.sas` delimiter list. -/
def sasSeparators : List String :=
  ["\ndata ", "\nproc ", "\nrun ", "\nquit ", "\nif ", "\ndo "] ++ lineSeparators

/-- The hard-coded `.R` delimiter list. -/
def rSeparators : List String :=
  ["\nfunction ", "\nif ", "\nfor ", "\nwhile "] ++ lineSeparators

/-- The hard-coded `.sql` delimiter list. -/
def sqlSeparators : List String :=
  [";", "\ncreate ", "\nselect ", "\nfrom ", "\nwhere ", "\ngroup by ",
   "\nhaving ", "\norder by "] ++ lineSeparators

/-- `get_text_splitter(ext, ext_map)`: the three special-cased extensions
get their hard-coded separators, other mapped extensions delegate to
`from_language`, and unmapped extensions raise `ValueError`. -/
def get_text_splitter (ext : String) (ext_map : List (String × String)) :
    Except PyErr Splitter :=
  if ext = ".sas" then .ok (.chars sasSeparators)
  else if ext = ".R" then .ok (.chars rSeparators)
  else if ext = ".sql" then .ok (.chars sqlSeparators)
  else
    match dictGet ext_map ext with
    | some lang => .ok (.language lang)
    | none => .error (.valueErrorUnknownExt ext)

/-! ## `summarise.py`: `check_cost`

The tiktoken tokenizer is external binary data; it enters the model as an
arbitrary token-counting function `tc`, and the texts of the files stand in
for `cf.read_text()`. -/

/-- The quantities computed by `check_cost`: the estimated total token
count `total_tokens` and the dollar cost printed to the user
(`total_tokens * cost_per_1k / 1000`), with exact rational arithmetic in
place of Python floats. -/
def check_cost (tc : String → Nat) (texts : List String) (costPer1k : ℚ) : Nat × ℚ :=
  let totalInputTokens := (texts.map tc).sum
  let likelyOutputTokens := texts.length * 100
  let totalTokens := totalInputTokens + likelyOutputTokens
  (totalTokens, (totalTokens : ℚ) * costPer1k / 1000)

/-- `yn.upper()`; Python's `str.upper`, restricted to the ASCII replies the
prompt is about (Lean's `Char.toUpper` upcases exactly the ASCII letters). -/
def pyUpper (s : String) : String := ⟨s.data.map Char.toUpper⟩

/-- The continuation check at the end of `check_cost`: `SystemExit` is
raised exactly when this is `true`. -/
def check_cost_cancels (yn : String) : Bool := pyUpper yn != "Y"

/-! ## The Python `csv` module (excel dialect) and text-mode newline
translation

`write_summary_csv` opens its file with `newline=""`, so the writer's
output reaches the disk verbatim, with `\r\n` row terminators.  Both reads
(`read_code_summary_csv` and the header check in
`safe_write_code_summary_csv`) use the default `newline=None`, so the text
they see has passed through universal-newline translation. -/

/-- Does `csv.writer` (QUOTE_MINIMAL) have to quote this field?  Exactly
when it contains the delimiter, the quote character, or a line-terminator
character. -/
def needsQuote (s : String) : Bool :=
  s.data.any (fun c => c = ',' || c = '"' || c = '\r' || c = '\n')

/-- Double every quote character of a quoted field body. -/
def escapeChars (cs : List Char) : List Char :=
  cs.flatMap (fun c => if c = '"' then ['"', '"'] else [c])

/-- One field as written by `csv.writer`. -/
def writeField (s : String) : List Char :=
  if needsQuote s then '"' :: (escapeChars s.data ++ ['"']) else s.data

/-- The comma-joined fields of one record. -/
def recordBody : List String → List Char
  | [] => []
  | f :: rest =>
    match rest with
    | [] => writeField f
    | g :: rest2 => writeField f ++ (',' :: recordBody (g :: rest2))

/-- One `writerow` of the excel dialect: comma-joined fields and a `\r\n`
terminator.  (A row that is a single empty field is written `""` so it is
not mistaken for a blank line; the repository only ever writes three-field
rows.) -/
def writeRecord (fields : List String) : List Char :=
  match fields with
  | [""] => ['"', '"', '\r', '\n']
  | _ => recordBody fields ++ ['\r', '\n']

/-- `writerows`. -/
def writeRows (rows : List (List String)) : List Char :=
  (rows.map writeRecord).flatten

/-- Universal-newline translation performed by text-mode `open()`:
`"\r\n"` and a lone `"\r"` both become `"\n"`. -/
def translateNewlines : List Char → List Char
  | [] => []
  | c :: cs =>
    if c = '\r' then
      match cs with
      | [] => ['\n']
      | '\n' :: cs2 => '\n' :: translateNewlines cs2
      | c2 :: cs2 => '\n' :: translateNewlines (c2 :: cs2)
    else c :: translateNewlines cs

/-- States of the `csv.reader` field state machine. -/
inductive CsvSt
  | stRecord
  | stField
  | stInField
  | stQuoted
  | stQuoteQuoted
deriving DecidableEq, Repr

/-- The `csv.reader` state machine (excel dialect, non-strict) on
newline-translated text; `curf` is the reversed-free field accumulator and
`currec` the fields of the current record.  A blank line yields an empty
record, an unterminated quoted field is emitted at end of input, and a
stray character after a closing quote is kept, as CPython does. -/
def runCsv : List Char → CsvSt → List Char → List String → List (List String)
  | [], .stRecord, _, _ => []
  | [], _, curf, currec => [currec ++ [⟨curf⟩]]
  | c :: cs, .stRecord, curf, currec =>
    if c = '\n' then [] :: runCsv cs .stRecord [] []
    else if c = '"' then runCsv cs .stQuoted curf currec
    else if c = ',' then runCsv cs .stField [] (currec ++ [⟨curf⟩])
    else runCsv cs .stInField (curf ++ [c]) currec
  | c :: cs, .stField, curf, currec =>
    if c = '\n' then (currec ++ [⟨curf⟩]) :: runCsv cs .stRecord [] []
    else if c = '"' then runCsv cs .stQuoted curf currec
    else if c = ',' then runCsv cs .stField [] (currec ++ [⟨curf⟩])
    else runCsv cs .stInField (curf ++ [c]) currec
  | c :: cs, .stInField, curf, currec =>
    if c = '\n' then (currec ++ [⟨curf⟩]) :: runCsv cs .stRecord [] []
    else if c = ',' then runCsv cs .stField [] (currec ++ [⟨curf⟩])
    else runCsv cs .stInField (curf ++ [c]) currec
  | c :: cs, .stQuoted, curf, currec =>
    if c = '"' then runCsv cs .stQuoteQuoted curf currec
    else runCsv cs .stQuoted (curf ++ [c]) currec
  | c :: cs, .stQuoteQuoted, curf, currec =>
    if c = '"' then runCsv cs .stQuoted (curf ++ [c]) currec
    else if c = ',' then runCsv cs .stField [] (currec ++ [⟨curf⟩])
    else if c = '\n' then (currec ++ [⟨curf⟩]) :: runCsv cs .stRecord [] []
    else runCsv cs .stInField (curf ++ [c]) currec

/-- `list(csv.reader(f))` on (already translated) text. -/
def parseCsv (cs : List Char) : List (List String) := runCsv cs .stRecord [] []

/-! ## `io.py` -/

/-- The contents of a file path: `none` when the file does not exist. -/
abbrev FileState := Option String

/-- The tuple unpacking `for path, summary, contents_hash in r`: a row of
any width other than three raises `ValueError`. -/
def unpackRow : List String → Except PyErr (String × String × String)
  | [p, s, h] => .ok (p, s, h)
  | _ => .error .valueErrorUnpack

/-- The raw `(path, summary, contents_hash)` records of a store file:
`csv.reader` rows after the header is consumed by `next(r)`; an empty file
makes `next(r)` raise `StopIteration`. -/
def readRawRecords (content : String) : Except PyErr (List (String × String × String)) :=
  match parseCsv (translateNewlines content.data) with
  | [] => .error .stopIteration
  | _ :: records => records.mapM unpackRow

/-- `read_code_summary_csv`: parse the store and rebuild `FileSummary`
values through the dataclass constructor (whose `__post_init__` re-hashes
the file at `path` when the stored hash field is empty — hence the file
system `fsys` argument); the resulting Python dict is the
insertion-ordered association list. -/
def read_code_summary_csv (fsys : String → List Nat) (content : String) :
    Except PyErr (List (String × FileSummary)) :=
  (readRawRecords content).map
    (fun records => records.map (fun r => (r.1, mkFileSummary r.1 r.2.1 r.2.2 (fsys r.1))))

/-- Lookup in a Python dict built by repeated insertion: the last
insertion for a key wins. -/
def dictLookup (d : List (String × FileSummary)) (k : String) : Option FileSummary :=
  (d.reverse.find? (fun p => p.1 = k)).map (fun p => p.2)

/-- `write_summary_csv(summary, file, mode, header)`: the csv writer's
text is written verbatim (the file is opened with `newline=""`);
`summary[0]` raises `IndexError` on an empty list when a header is
requested.  `append = false` is mode `"w"` (truncate), `append = true` is
mode `"a"` (append, creating the file when missing). -/
def write_summary_csv (ss : List FileSummary) (st : FileState) (append header : Bool) :
    Except PyErr FileState :=
  match header, ss with
  | true, [] => .error .indexError
  | _, _ =>
    let text : List Char :=
      (if header then writeRecord fieldNames else []) ++ writeRows (ss.map rowOf)
    .ok (some ((if append then st.getD "" else "") ++ String.mk text))

/-- The unconditional tail of `safe_write_code_summary_csv`: read the first
csv record of the existing file, compare it with the dataclass field names
(`next(iter(summary))` raises `StopIteration` on an empty iterable first),
and on success append the rows with `mode="a", header=False`. -/
def checkColsAndAppend (ss : List FileSummary) (content : String) : Except PyErr FileState :=
  match (parseCsv (translateNewlines content.data)).head? with
  | none => .error .stopIteration
  | some fileCols =>
    match ss with
    | [] => .error .stopIteration
    | _ :: _ =>
      if fieldNames ≠ fileCols then .error (.valueErrorColumns fileCols fieldNames)
      else write_summary_csv ss (some content) true false

/-- `safe_write_code_summary_csv(summary, file)`.  The source has no
`return` (and no `else`) after the missing-file branch writes the file, so
control always falls through to the check-and-append tail — also when the
file was just created by that branch. -/
def safe_write_code_summary_csv (ss : List FileSummary) (st : FileState) :
    Except PyErr FileState :=
  match st with
  | none =>
    match write_summary_csv ss none false true with
    | .error e => .error e
    | .ok st1 => checkColsAndAppend ss (st1.getD "")
  | some content => checkColsAndAppend ss content

/-! ## `summarise.py`: `get_summaries`

The external pieces enter as parameters: `fsys` gives a file's bytes (what
`hash_file` reads), `ftext` its decoded text (`read_text`), and `llm`
stands for running the LangChain map-reduce summarization chain on the
chunks of a file's text — the caching logic observes nothing of it but the
returned string.  The choice between `ChatOpenAI` and `OpenAI` only selects
that external object and is absorbed into `llm` as well. -/

/-- The last `/`-separated component of a path (`PurePath.name`; paths are
the normalised strings `str(Path(...).resolve())` produces, so there is no
trailing slash). -/
def lastComponent (cs : List Char) : List Char :=
  cs.foldl (fun acc c => if c = '/' then [] else acc ++ [c]) []

/-- `PurePath.suffix`: the dot-suffix of the final path component, empty
when the name has no dot, starts with its only dot, or ends with a dot. -/
def pySuffix (p : String) : String :=
  let name := lastComponent p.data
  let i := name.length - 1 - name.reverse.findIdx (fun c => c = '.')
  if '.' ∈ name ∧ 0 < i ∧ i < name.length - 1 then ⟨name.drop i⟩ else ""

/-- One run's external environment. -/
structure Env where
  fsys : String → List Nat
  ftext : String → String
  llm : String → String

/-- The skip test of the loop body: Python's
`existing_summaries and path in existing_summaries` (dict truthiness plus
membership) followed by the stored-vs-current hash comparison. -/
def loopSkip (existing : Option (List (String × FileSummary))) (path : String)
    (code_file : FileSummary) : Bool :=
  match existing with
  | none => false
  | some dict =>
    !dict.isEmpty &&
      (match dictLookup dict path with
       | some old => old.contents_hash == code_file.contents_hash
       | none => false)

/-- The `for path in code_paths` loop of `get_summaries`, threading the
store-file state and collecting the `FileSummary` values that are actually
computed and written.  `existing` is the dict loaded before the loop
(`none` when the store file did not exist); `continue` on a skip bypasses
both the chain run and the write. -/
def summariseLoop (env : Env) (existing : Option (List (String × FileSummary))) :
    List String → FileState → List FileSummary →
    Except PyErr (FileState × List FileSummary)
  | [], st, written => .ok (st, written)
  | path :: rest, st, written =>
    match get_text_splitter (pySuffix path) EXT_MAP with
    | .error e => .error e
    | .ok _ =>
      let code := env.ftext path
      let code_file := mkFileSummary path "" "" (env.fsys path)
      if loopSkip existing path code_file then summariseLoop env existing rest st written
      else
        let code_file2 : FileSummary :=
          ⟨code_file.path, (env.llm code).trim, code_file.contents_hash⟩
        match safe_write_code_summary_csv [code_file2] st with
        | .error e => .error e
        | .ok st2 => summariseLoop env existing rest st2 (written ++ [code_file2])

/-- `get_summaries(code_paths, code_ext, summary_store,
always_check_existing_summaries)`: the extension check, the
`EXT_MAP[code_ext]` dict access made when the map prompt is built, the
loading of existing summaries, and the summarization loop.  Returns the
final store-file state together with the summaries computed and passed to
`safe_write_code_summary_csv`, in order. -/
def get_summaries (env : Env) (code_paths : List String) (code_ext : String)
    (summary_store : FileState) (always_check : Bool) :
    Except PyErr (FileState × List FileSummary) :=
  if ¬ code_paths.all (fun p => pySuffix p = code_ext) then .error .valueErrorSuffix
  else
    match dictGet EXT_MAP code_ext with
    | none => .error (.keyError code_ext)
    | some _ =>
      match summary_store with
      | none =>
        if always_check then .error .fileNotFoundError
        else summariseLoop env none code_paths none []
      | some content =>
        match read_code_summary_csv env.fsys content with
        | .error e => .error e
        | .ok dict => summariseLoop env (some dict) code_paths (some content) []

/-! ## Specification vocabulary for the caching claim

These definitions name the quantities the cache claim speaks about; they
are stated over the *raw* store rows, so "stored hash" means the text in
the CSV file, before any dataclass re-hashing. -/

/-- The hash text stored in the last store row for a path (a later
duplicate row overrides an earlier one, as in the Python dict). -/
def storedHash (records : List (String × String × String)) (p : String) : Option String :=
  (records.reverse.find? (fun r => r.1 = p)).map (fun r => r.2.2)

/-- Cache hit: the path appears in the loaded store and its stored hash
text equals the digest of the file's current bytes. -/
def cacheHit (env : Env) (records : List (String × String × String)) (p : String) : Bool :=
  storedHash records p == some (sha256hex (env.fsys p))

/-- The summaries a run computes: one per non-cache-hit path, in order,
carrying the chain's stripped output and the file's current digest. -/
def freshSummaries (env : Env) (records : List (String × String × String))
    (paths : List String) : List FileSummary :=
  (paths.filter (fun p => !cacheHit env records p)).map
    (fun p => ⟨p, (env.llm (env.ftext p)).trim, sha256hex (env.fsys p)⟩)

/-- The hasher loop accumulates exactly the whole file, for any positive
block size and enough fuel. -/
theorem hashLoopAux_eq (blockSize : Nat) (hpos : 0 < blockSize) :
    ∀ (fuel : Nat) (rest acc : List Nat), rest.length < fuel →
      hashLoopAux fuel blockSize rest acc = acc ++ rest := by
  intro fuel
  induction fuel with
  | zero => intro rest acc h; omega
  | succ n ih =>
    intro rest acc h
    match rest with
    | [] => simp [hashLoopAux]
    | r :: rs =>
      simp only [List.length_cons] at h
      have htake : ((r :: rs).take blockSize).length ≠ 0 := by
        simp only [List.length_take, List.length_cons]
        omega
      simp only [hashLoopAux, if_neg htake]
      rw [ih ((r :: rs).drop blockSize) (acc ++ (r :: rs).take blockSize)
            (by simp only [List.length_drop, List.length_cons]; omega)]
      rw [List.append_assoc, List.take_append_drop]

/-! ## Claim C4: the content hash -/

/-- C4: for every `FileSummary` created for a source file, the content
hash computed at construction (`__post_init__` with an empty hash field)
is the SHA-256 hex digest of the file's complete bytes, and `hash_file`
returns that same digest for every positive block size. -/
theorem hash_file_matches_sha256 (bytes : List Nat) (path : String) (blockSize : Nat)
    (hpos : 0 < blockSize) :
    hash_file bytes blockSize = sha256hex bytes ∧
    (mkFileSummary path "" "" bytes).contents_hash = sha256hex bytes := by
  have key : ∀ bs : Nat, 0 < bs → hash_file bytes bs = sha256hex bytes := by
    intro bs hbs
    unfold hash_file
    rw [hashLoopAux_eq bs hbs (bytes.length + 1) bytes [] (by omega)]
    rfl
  refine ⟨key blockSize hpos, ?_⟩
  have hdef : (mkFileSummary path "" "" bytes).contents_hash = hash_file bytes 65536 := rfl
  rw [hdef]
  exact key 65536 (by omega)

/-- Witness for C4 at a concrete file and block size. -/
theorem hash_file_matches_sha256_witness :
    0 < 7 ∧ (hash_file [1, 2, 3, 4, 5] 7 = sha256hex [1, 2, 3, 4, 5] ∧
      (mkFileSummary "data/inputs/a.sas" "" "" [1, 2, 3, 4, 5]).contents_hash =
        sha256hex [1, 2, 3, 4, 5]) :=
  ⟨by decide, hash_file_matches_sha256 [1, 2, 3, 4, 5] "data/inputs/a.sas" 7 (by decide)⟩

/-! ## Claim C7: `get_text_splitter` dispatch -/

/-- C7: `get_text_splitter` returns a splitter for every extension that is
a key of `EXT_MAP` — `.sas`, `.R` and `.sql` get their hard-coded
delimiter lists, every other mapped extension delegates to the
language-based splitter — and raises `ValueError` for every extension that
is not a key of the map. -/
theorem get_text_splitter_cases (ext : String) :
    (dictGet EXT_MAP ext = none →
      get_text_splitter ext EXT_MAP = .error (.valueErrorUnknownExt ext)) ∧
    get_text_splitter ".sas" EXT_MAP = .ok (.chars sasSeparators) ∧
    get_text_splitter ".R" EXT_MAP = .ok (.chars rSeparators) ∧
    get_text_splitter ".sql" EXT_MAP = .ok (.chars sqlSeparators) ∧
    (∀ lang, dictGet EXT_MAP ext = some lang → ext ∉ [".sas", ".R", ".sql"] →
      get_text_splitter ext EXT_MAP = .ok (.language lang)) := by
  refine ⟨?_, rfl, rfl, rfl, ?_⟩
  · intro h
    have h1 : ext ≠ ".sas" := by rintro rfl; exact absurd h (by decide)
    have h2 : ext ≠ ".R" := by rintro rfl; exact absurd h (by decide)
    have h3 : ext ≠ ".sql" := by rintro rfl; exact absurd h (by decide)
    simp only [get_text_splitter, if_neg h1, if_neg h2, if_neg h3, h]
  · intro lang hl hmem
    simp only [List.mem_cons, List.not_mem_nil, or_false] at hmem
    push_neg at hmem
    obtain ⟨h1, h2, h3⟩ := hmem
    simp only [get_text_splitter, if_neg h1, if_neg h2, if_neg h3, hl]

/-- Witness for C7: a mapped non-special extension succeeds through the
language splitter, an unmapped one errors. -/
theorem get_text_splitter_cases_witness :
    get_text_splitter ".py" EXT_MAP = .ok (.language "python") ∧
    get_text_splitter ".txt" EXT_MAP = .error (.valueErrorUnknownExt ".txt") :=
  ⟨(get_text_splitter_cases ".py").2.2.2.2 "python" (by decide) (by decide),
   (get_text_splitter_cases ".txt").1 (by decide)⟩

/-! ## Claim C8: the cost estimate -/

/-- C8: `check_cost`'s estimated token total is the sum over the given
files of the tokenizer's count of the file text plus 100 assumed output
tokens per file, and the reported cost is that total multiplied by
`cost_per_1k` and divided by 1000. -/
theorem check_cost_estimate (tc : String → Nat) (texts : List String) (costPer1k : ℚ) :
    (check_cost tc texts costPer1k).1 = (texts.map (fun t => tc t + 100)).sum ∧
    (check_cost tc texts costPer1k).2 =
      ((check_cost tc texts costPer1k).1 : ℚ) * costPer1k / 1000 := by
  refine ⟨?_, rfl⟩
  show (texts.map tc).sum + texts.length * 100 = (texts.map (fun t => tc t + 100)).sum
  induction texts with
  | nil => rfl
  | cons t ts ih =>
    simp only [List.map_cons, List.sum_cons, List.length_cons]
    omega

/-! ## Claim C9: the continuation prompt -/

/-- C9: `check_cost` raises `SystemExit` exactly when the upper-cased
reply is not `"Y"`; in particular the empty reply to the `[Y]/N` prompt
cancels the run, as do `"N"` and `"yes"`, while `"y"` and `"Y"` continue. -/
theorem check_cost_cancel_iff (yn : String) :
    (check_cost_cancels yn = true ↔ pyUpper yn ≠ "Y") ∧
    check_cost_cancels "" = true ∧
    check_cost_cancels "y" = false ∧
    check_cost_cancels "Y" = false ∧
    check_cost_cancels "N" = true ∧
    check_cost_cancels "yes" = true := by
  refine ⟨?_, by decide, by decide, by decide, by decide, by decide⟩
  simp [check_cost_cancels]

/-! ## Claim C2: writing to a fresh store -/

/-- C2 (the code's actual behaviour at the failing input): writing the
single summary `FileSummary("a.py", "sum", "h")` with
`safe_write_code_summary_csv` when the store file does not exist produces
the header row followed by the data row twice.  The missing-file branch
has no `return`, so after creating the file control falls through to the
header check (which the just-written header passes) and the rows are
appended a second time. -/
theorem safe_write_new_file_duplicates_rows :
    safe_write_code_summary_csv [⟨"a.py", "sum", "h"⟩] none =
      .ok (some "path,summary,contents_hash\r\na.py,sum,h\r\na.py,sum,h\r\n") := by
  rfl

/-! ## Claim C10: header mismatch -/

/-- C10: when the store file exists and its header row differs from the
dataclass field names, `safe_write_code_summary_csv` raises `ValueError`;
the raise happens before any write, so the model returns no new file state
and the store contents are untouched. -/
theorem safe_write_header_mismatch_raises (content : String) (ss : List FileSummary)
    (cols : List String)
    (hcols : (parseCsv (translateNewlines content.data)).head? = some cols)
    (hne : cols ≠ fieldNames) (hss : ss ≠ []) :
    safe_write_code_summary_csv ss (some content) =
      .error (.valueErrorColumns cols fieldNames) := by
  have hred : safe_write_code_summary_csv ss (some content) = checkColsAndAppend ss content := rfl
  rw [hred]
  unfold checkColsAndAppend
  rw [hcols]
  match ss, hss with
  | s :: rest, _ =>
    simp only [if_pos (Ne.symm hne)]

/-- Witness for C10 at a concrete store whose header is `a,b`. -/
theorem safe_write_header_mismatch_raises_witness :
    safe_write_code_summary_csv [⟨"p", "s", "h"⟩] (some "a,b\r\nrow1,row2\r\n") =
      .error (.valueErrorColumns ["a", "b"] fieldNames) :=
  safe_write_header_mismatch_raises "a,b\r\nrow1,row2\r\n" [⟨"p", "s", "h"⟩] ["a", "b"]
    (by rfl) (by decide) (by decide)

/-! ## The csv writer's output through translation and the reader

These lemmas trace a written record through universal-newline translation
and the reader's state machine, for fields free of carriage returns (the
carriage return is exactly the character the translation destroys). -/

/-- Translation passes over a character other than `\r` unchanged. -/
theorem translateNewlines_cons_ne (c : Char) (cs : List Char) (hc : c ≠ '\r') :
    translateNewlines (c :: cs) = c :: translateNewlines cs := by
  cases cs with
  | nil => rw [translateNewlines.eq_2, if_neg hc]
  | cons c2 cs2 =>
    by_cases h2 : c2 = '\n'
    · subst h2
      rw [translateNewlines.eq_3, if_neg hc]
    · rw [translateNewlines.eq_4 c c2 cs2 (fun h => absurd h h2), if_neg hc]

/-- Translation is the identity on carriage-return-free text. -/
theorem translateNewlines_noCR (cs : List Char) (h : '\r' ∉ cs) (t : List Char) :
    translateNewlines (cs ++ t) = cs ++ translateNewlines t := by
  induction cs with
  | nil => rfl
  | cons c cs' ih =>
    have hc : c ≠ '\r' := fun hc => h (hc ▸ List.mem_cons_self c cs')
    have h' : '\r' ∉ cs' := fun hm => h (List.mem_cons_of_mem c hm)
    rw [List.cons_append, translateNewlines_cons_ne c _ hc, ih h']
    rfl

/-- A `\r\n`-terminated record with a carriage-return-free body translates
to the same body terminated by `\n`. -/
theorem translateNewlines_record (body t : List Char) (h : '\r' ∉ body) :
    translateNewlines (body ++ ('\r' :: '\n' :: t)) = body ++ ('\n' :: translateNewlines t) := by
  rw [translateNewlines_noCR body h]
  congr 1

/-- Quote-doubling introduces no new characters other than quotes. -/
theorem escapeChars_not_mem (cs : List Char) (c : Char) (hc : c ∉ cs) (hq : c ≠ '"') :
    c ∉ escapeChars cs := by
  intro hmem
  rcases List.mem_flatMap.mp hmem with ⟨a, ha, hca⟩
  by_cases h : a = '"'
  · subst h
    rw [if_pos rfl] at hca
    simp only [List.mem_cons, List.not_mem_nil, or_false, or_self] at hca
    exact hq hca
  · simp only [if_neg h, List.mem_singleton] at hca
    exact hc (hca ▸ ha)

/-- A written field contains no carriage return when the field does not. -/
theorem writeField_noCR (f : String) (h : '\r' ∉ f.data) : '\r' ∉ writeField f := by
  unfold writeField
  split
  · intro hmem
    rcases List.mem_cons.mp hmem with h1 | h1
    · exact absurd h1 (by decide)
    · rcases List.mem_append.mp h1 with h2 | h2
      · exact escapeChars_not_mem f.data '\r' h (by decide) h2
      · simp only [List.mem_singleton] at h2
        exact absurd h2 (by decide)
  · exact h

/-- The reader consumes a quote-doubled field body inside a quoted field,
accumulating exactly the original body. -/
theorem runCsv_escape (g : List Char) :
    ∀ (t curf : List Char) (currec : List String),
      runCsv (escapeChars g ++ t) .stQuoted curf currec =
        runCsv t .stQuoted (curf ++ g) currec := by
  induction g with
  | nil => intro t curf currec; simp [escapeChars]
  | cons c g' ih =>
    intro t curf currec
    by_cases hc : c = '"'
    · subst hc
      have hsplit : escapeChars ('"' :: g') ++ t = '"' :: ('"' :: (escapeChars g' ++ t)) := by
        simp [escapeChars]
      rw [hsplit]
      simp only [runCsv, if_pos]
      rw [ih]
      simp
    · have hsplit : escapeChars (c :: g') ++ t = c :: (escapeChars g' ++ t) := by
        simp [escapeChars, hc]
      rw [hsplit]
      simp only [runCsv, if_neg hc]
      rw [ih]
      simp

/-- The reader consumes safe text inside an unquoted field, accumulating
it. -/
theorem runCsv_inField (g : List Char) (hg : ∀ c ∈ g, ¬(c = '\n' ∨ c = ',')) :
    ∀ (t curf : List Char) (currec : List String),
      runCsv (g ++ t) .stInField curf currec = runCsv t .stInField (curf ++ g) currec := by
  induction g with
  | nil => intro t curf currec; simp
  | cons c g' ih =>
    intro t curf currec
    have h1 : c ≠ '\n' := fun h => hg c (List.mem_cons_self c g') (Or.inl h)
    have h3 : c ≠ ',' := fun h => hg c (List.mem_cons_self c g') (Or.inr h)
    rw [List.cons_append]
    simp only [runCsv, if_neg h1, if_neg h3]
    rw [ih (fun x hx => hg x (List.mem_cons_of_mem c hx))]
    simp

/-- A string is the `String.mk` of its character list. -/
theorem string_eta (f : String) : (⟨f.data⟩ : String) = f := rfl

/-- From the start of a field, the reader consumes one written field and
then acts on the delimiter: a comma starts the next field, a newline ends
the record, in both cases with the original field value recovered. -/
theorem runCsv_writeField (f : String) (t : List Char) (currec : List String) :
    runCsv (writeField f ++ (',' :: t)) .stField [] currec =
      runCsv t .stField [] (currec ++ [f]) ∧
    runCsv (writeField f ++ ('\n' :: t)) .stField [] currec =
      (currec ++ [f]) :: runCsv t .stRecord [] [] := by
  obtain ⟨cs⟩ := f
  by_cases hq : needsQuote ⟨cs⟩ = true
  · rw [writeField, if_pos hq]
    have hsplit : ∀ d : Char, ∀ u : List Char,
        ('"' :: (escapeChars (String.data ⟨cs⟩) ++ ['"'])) ++ (d :: u) =
          '"' :: (escapeChars cs ++ ('"' :: d :: u)) := by
      intro d u; simp
    constructor
    · rw [hsplit]
      have step1 : runCsv ('"' :: (escapeChars cs ++ ('"' :: ',' :: t))) .stField [] currec =
          runCsv (escapeChars cs ++ ('"' :: ',' :: t)) .stQuoted [] currec := by
        simp [runCsv]
      rw [step1, runCsv_escape]
      simp [runCsv]
    · rw [hsplit]
      have step1 : runCsv ('"' :: (escapeChars cs ++ ('"' :: '\n' :: t))) .stField [] currec =
          runCsv (escapeChars cs ++ ('"' :: '\n' :: t)) .stQuoted [] currec := by
        simp [runCsv]
      rw [step1, runCsv_escape]
      simp [runCsv]
  · rw [writeField, if_neg hq]
    simp only [needsQuote, List.any_eq_true, Bool.or_eq_true, decide_eq_true_eq,
      not_exists, not_and, not_or] at hq
    show runCsv (cs ++ _) .stField [] currec = _ ∧ runCsv (cs ++ _) .stField [] currec = _
    cases cs with
    | nil => constructor <;> simp [runCsv]
    | cons c g' =>
      obtain ⟨⟨⟨hc1, hc2⟩, hc3⟩, hc4⟩ := hq c (List.mem_cons_self c g')
      have hg' : ∀ x ∈ g', ¬(x = '\n' ∨ x = ',') := by
        intro x hx hor
        obtain ⟨⟨⟨d1, d2⟩, d3⟩, d4⟩ := hq x (List.mem_cons_of_mem c hx)
        rcases hor with h | h
        · exact d4 h
        · exact d1 h
      constructor
      · rw [List.cons_append]
        have step1 : runCsv (c :: (g' ++ (',' :: t))) .stField [] currec =
            runCsv (g' ++ (',' :: t)) .stInField [c] currec := by
          simp [runCsv, hc4, hc2, hc1]
        rw [step1, runCsv_inField g' hg']
        simp [runCsv]
      · rw [List.cons_append]
        have step1 : runCsv (c :: (g' ++ ('\n' :: t))) .stField [] currec =
            runCsv (g' ++ ('\n' :: t)) .stInField [c] currec := by
          simp [runCsv, hc4, hc2, hc1]
        rw [step1, runCsv_inField g' hg']
        simp [runCsv]

/-- From the start of a field, the reader consumes a whole record body and
its terminating newline, recovering the fields. -/
theorem runCsv_recordBody (fields : List String) (hne : fields ≠ []) :
    ∀ (t : List Char) (currec : List String),
      runCsv (recordBody fields ++ ('\n' :: t)) .stField [] currec =
        (currec ++ fields) :: runCsv t .stRecord [] [] := by
  induction fields with
  | nil => exact absurd rfl hne
  | cons f rest ih =>
    intro t currec
    match rest with
    | [] =>
      show runCsv (writeField f ++ ('\n' :: t)) .stField [] currec = _
      exact (runCsv_writeField f t currec).2
    | g :: rest2 =>
      show runCsv ((writeField f ++ (',' :: recordBody (g :: rest2))) ++ ('\n' :: t))
        .stField [] currec = _
      rw [List.append_assoc, List.cons_append]
      rw [(runCsv_writeField f (recordBody (g :: rest2) ++ ('\n' :: t)) currec).1]
      rw [ih (by simp) t (currec ++ [f])]
      simp

/-- On a first character other than a newline, the record-start state
behaves like the field-start state. -/
theorem runCsv_stRecord_stField (c : Char) (cs : List Char) (hc : c ≠ '\n') :
    runCsv (c :: cs) .stRecord [] [] = runCsv (c :: cs) .stField [] [] := by
  simp only [runCsv, if_neg hc]

/-- A written field is empty or starts with a character other than a
newline. -/
theorem writeField_head (f : String) :
    writeField f = [] ∨ ∃ c cs, writeField f = c :: cs ∧ c ≠ '\n' := by
  unfold writeField
  by_cases hq : needsQuote f = true
  · rw [if_pos hq]
    exact Or.inr ⟨'"', _, rfl, by decide⟩
  · rw [if_neg hq]
    simp only [needsQuote, List.any_eq_true, Bool.or_eq_true, decide_eq_true_eq,
      not_exists, not_and, not_or] at hq
    cases hd : f.data with
    | nil => exact Or.inl rfl
    | cons c cs =>
      refine Or.inr ⟨c, cs, rfl, ?_⟩
      exact (hq c (hd ▸ List.mem_cons_self c cs)).2

/-- From the record-start state, the reader consumes a whole record of at
least two fields and its newline, yielding exactly those fields. -/
theorem runCsv_record (fields : List String) (h2 : 2 ≤ fields.length) (t : List Char) :
    runCsv (recordBody fields ++ ('\n' :: t)) .stRecord [] [] =
      fields :: runCsv t .stRecord [] [] := by
  match fields, h2 with
  | f :: g :: rest, _ =>
    have hbody : recordBody (f :: g :: rest) ++ ('\n' :: t) =
        writeField f ++ (',' :: recordBody (g :: rest)) ++ ('\n' :: t) := rfl
    have hstep : ∃ c cs, recordBody (f :: g :: rest) ++ ('\n' :: t) = c :: cs ∧ c ≠ '\n' := by
      rcases writeField_head f with hnil | ⟨c, cs, heq, hc⟩
      · rw [hbody, hnil]
        exact ⟨',', _, rfl, by decide⟩
      · rw [hbody, heq]
        exact ⟨c, _, rfl, hc⟩
    obtain ⟨c, cs, heq, hc⟩ := hstep
    rw [heq, runCsv_stRecord_stField c cs hc, ← heq,
      runCsv_recordBody (f :: g :: rest) (by simp) t []]
    simp

/-- A record body contains no carriage return when its fields do not. -/
theorem recordBody_noCR (fields : List String) (h : ∀ f ∈ fields, '\r' ∉ f.data) :
    '\r' ∉ recordBody fields := by
  induction fields with
  | nil => simp [recordBody]
  | cons f rest ih =>
    match rest with
    | [] =>
      exact writeField_noCR f (h f (List.mem_cons_self f []))
    | g :: rest2 =>
      show '\r' ∉ writeField f ++ (',' :: recordBody (g :: rest2))
      intro hmem
      rcases List.mem_append.mp hmem with h1 | h1
      · exact writeField_noCR f (h f (List.mem_cons_self f _)) h1
      · rcases List.mem_cons.mp h1 with h2 | h2
        · exact absurd h2 (by decide)
        · exact ih (fun x hx => h x (List.mem_cons_of_mem f hx)) h2

/-- Parsing the translated text of the writer's `writerows` output
recovers the rows, for rows of at least two carriage-return-free fields. -/
theorem parseCsv_writeRows (rows : List (List String))
    (h : ∀ r ∈ rows, 2 ≤ r.length ∧ ∀ f ∈ r, '\r' ∉ f.data) :
    parseCsv (translateNewlines (writeRows rows)) = rows := by
  induction rows with
  | nil => rfl
  | cons r rows' ih =>
    obtain ⟨h2, hcr⟩ := h r (List.mem_cons_self r rows')
    have hrne : r ≠ [""] := by
      intro heq
      rw [heq] at h2
      simp at h2
    have hwr : writeRows (r :: rows') = recordBody r ++ ('\r' :: '\n' :: writeRows rows') := by
      show writeRecord r ++ writeRows rows' = _
      unfold writeRecord
      split
      · exact absurd rfl hrne
      · simp
    rw [hwr, translateNewlines_record _ _ (recordBody_noCR r hcr)]
    unfold parseCsv
    rw [runCsv_record r h2]
    exact congrArg (r :: ·) (ih (fun x hx => h x (List.mem_cons_of_mem r hx)))

/-- Unpacking the written rows of a summary list recovers the raw
triples. -/
theorem mapM_unpackRow (ss : List FileSummary) :
    (ss.map rowOf).mapM unpackRow =
      Except.ok (ss.map (fun s => (s.path, s.summary, s.contents_hash))) := by
  induction ss with
  | nil => rfl
  | cons s rest ih =>
    simp only [List.map_cons, List.mapM_cons, ih]
    rfl

/-- A `FileSummary` is determined by its three fields. -/
theorem filesummary_eta (s : FileSummary) :
    (⟨s.path, s.summary, s.contents_hash⟩ : FileSummary) = s := rfl

/-- Reading back a store whose parse is the header plus the rows written
for `ss` yields exactly the dictionary of `ss`, when no stored hash field
is empty. -/
theorem read_back (fsys : String → List Nat) (content : String) (ss : List FileSummary)
    (hhash : ∀ s ∈ ss, s.contents_hash ≠ "")
    (hparse : parseCsv (translateNewlines content.data) = fieldNames :: ss.map rowOf) :
    read_code_summary_csv fsys content = .ok (ss.map (fun s => (s.path, s))) := by
  have hraw : readRawRecords content =
      .ok (ss.map (fun s => (s.path, s.summary, s.contents_hash))) := by
    unfold readRawRecords
    rw [hparse]
    exact mapM_unpackRow ss
  unfold read_code_summary_csv
  rw [hraw]
  show Except.ok _ = Except.ok _
  congr 1
  show List.map (fun r => (r.1, mkFileSummary r.1 r.2.1 r.2.2 (fsys r.1)))
      (List.map (fun s => (s.path, s.summary, s.contents_hash)) ss) =
    List.map (fun s => (s.path, s)) ss
  rw [List.map_map]
  apply List.map_congr_left
  intro s hs
  show (s.path, mkFileSummary s.path s.summary s.contents_hash (fsys s.path)) = (s.path, s)
  rw [mkFileSummary, if_neg (hhash s hs), filesummary_eta]

/-- With pairwise distinct paths, looking any written path up in the
resulting dict returns its own summary. -/
theorem dictLookup_unique (ss : List FileSummary)
    (hnodup : (ss.map FileSummary.path).Nodup) :
    ∀ s ∈ ss, dictLookup (ss.map (fun s => (s.path, s))) s.path = some s := by
  induction ss with
  | nil => intro s hs; exact absurd hs (List.not_mem_nil s)
  | cons s0 rest ih =>
    intro s hs
    simp only [List.map_cons, List.nodup_cons] at hnodup
    obtain ⟨hnotin, hnd⟩ := hnodup
    unfold dictLookup
    rw [List.map_cons, List.reverse_cons, List.find?_append]
    rcases List.mem_cons.mp hs with heq | hmem
    · subst heq
      have hnone : (List.find? (fun p => p.1 = s.path) ((rest.map (fun x => (x.path, x))).reverse)) = none := by
        rw [List.find?_eq_none]
        intro x hx
        simp only [List.mem_reverse, List.mem_map] at hx
        obtain ⟨y, hy, rfl⟩ := hx
        simp only [decide_eq_true_eq]
        intro hcontra
        exact hnotin (hcontra ▸ List.mem_map_of_mem FileSummary.path hy)
      rw [hnone]
      simp [Option.or]
    · have hih := ih hnd s hmem
      unfold dictLookup at hih
      obtain ⟨pr, hfind, hpr⟩ : ∃ pr,
          (List.find? (fun p => p.1 = s.path) ((rest.map (fun x => (x.path, x))).reverse)) = some pr ∧
            pr.2 = s := by
        cases hf : (List.find? (fun p => p.1 = s.path) ((rest.map (fun x => (x.path, x))).reverse)) with
        | none => rw [hf] at hih; exact absurd hih (by simp)
        | some pr =>
          rw [hf] at hih
          exact ⟨pr, rfl, by simpa using hih⟩
      rw [hfind]
      simp [Option.or, hpr]

/-! ## Claim C6: appending to an existing store -/

/-- Shared helper: on an existing store whose first parsed record is the
field names, `safe_write_code_summary_csv` returns the old contents with
the new rows' text appended. -/
theorem safeWrite_existing (content : String) (ss : List FileSummary)
    (hhead : (parseCsv (translateNewlines content.data)).head? = some fieldNames)
    (hss : ss ≠ []) :
    safe_write_code_summary_csv ss (some content) =
      .ok (some (content ++ String.mk (writeRows (ss.map rowOf)))) := by
  have hred : safe_write_code_summary_csv ss (some content) = checkColsAndAppend ss content := rfl
  rw [hred]
  unfold checkColsAndAppend
  rw [hhead]
  match ss, hss with
  | s :: rest, _ =>
    simp only [ne_eq, not_true_eq_false, if_neg, write_summary_csv]
    rfl

/-- Shared helper: a file beginning with the written header record parses
to the field names as its first record. -/
theorem header_head (content : String)
    (hhead : ∃ rest, content.data = writeRecord fieldNames ++ rest) :
    (parseCsv (translateNewlines content.data)).head? = some fieldNames := by
  obtain ⟨rest, hc⟩ := hhead
  rw [hc]
  have hsplit : writeRecord fieldNames ++ rest =
      recordBody fieldNames ++ ('\r' :: '\n' :: rest) := by
    show (recordBody fieldNames ++ ['\r', '\n']) ++ rest = _
    simp
  rw [hsplit, translateNewlines_record _ _ (by decide)]
  unfold parseCsv
  rw [runCsv_record fieldNames (by decide)]
  rfl

/-- C6: when the store file exists and its header row parses to exactly
the dataclass field names, `safe_write_code_summary_csv` appends the new
rows at the end: the resulting contents are the old contents followed by
the new rows' text, so every previously stored byte — and hence every
previously stored row — is left unchanged. -/
theorem safe_write_appends (content : String) (ss : List FileSummary)
    (hhead : (parseCsv (translateNewlines content.data)).head? = some fieldNames)
    (hss : ss ≠ []) :
    safe_write_code_summary_csv ss (some content) =
      .ok (some (content ++ String.mk (writeRows (ss.map rowOf)))) :=
  safeWrite_existing content ss hhead hss

/-- Witness for C6: appending one row to a header-only store. -/
theorem safe_write_appends_witness :
    safe_write_code_summary_csv [⟨"a.py", "s", "h"⟩] (some "path,summary,contents_hash\r\n") =
      .ok (some ("path,summary,contents_hash\r\n" ++
        String.mk (writeRows ([(⟨"a.py", "s", "h"⟩ : FileSummary)].map rowOf)))) :=
  safe_write_appends "path,summary,contents_hash\r\n" [⟨"a.py", "s", "h"⟩]
    (by rfl) (by decide)

/-! ## Claim C5: the write/read round trip -/

/-- C5 (counterexample to the claim as stated): a summary containing a
carriage return is corrupted by the round trip.  `write_summary_csv`
quotes and stores `"x\rwant"` verbatim, but `read_code_summary_csv` opens
the store without `newline=""`, so universal-newline translation returns
`"x\nwant"` instead. -/
theorem write_read_roundtrip_counterexample :
    write_summary_csv [⟨"a.py", "x\rwant", "h1"⟩] none false true =
      .ok (some "path,summary,contents_hash\r\na.py,\"x\rwant\",h1\r\n") ∧
    read_code_summary_csv (fun _ => []) "path,summary,contents_hash\r\na.py,\"x\rwant\",h1\r\n" =
      .ok [("a.py", ⟨"a.py", "x\nwant", "h1"⟩)] ∧
    ("x\nwant" : String) ≠ "x\rwant" :=
  ⟨rfl, rfl, by decide⟩

/-- C5 (amended): for every non-empty list of `FileSummary` values with
pairwise distinct paths, none of whose fields contains a carriage return
(content hashes being non-empty is an invariant of the dataclass, whose
`__post_init__` replaces an empty hash by a 64-character digest), writing
with `write_summary_csv` (mode `"w"`, header on) and reading the file back
with `read_code_summary_csv` returns a dictionary mapping each written
path to a `FileSummary` with the same path, summary text and
contents_hash as the one written. -/
theorem write_read_roundtrip (fsys : String → List Nat) (ss : List FileSummary)
    (hne : ss ≠ [])
    (hnodup : (ss.map FileSummary.path).Nodup)
    (hcr : ∀ s ∈ ss, '\r' ∉ s.path.data ∧ '\r' ∉ s.summary.data ∧ '\r' ∉ s.contents_hash.data)
    (hhash : ∀ s ∈ ss, s.contents_hash ≠ "") :
    write_summary_csv ss none false true =
      .ok (some ⟨writeRecord fieldNames ++ writeRows (ss.map rowOf)⟩) ∧
    read_code_summary_csv fsys ⟨writeRecord fieldNames ++ writeRows (ss.map rowOf)⟩ =
      .ok (ss.map (fun s => (s.path, s))) ∧
    ∀ s ∈ ss, dictLookup (ss.map (fun s => (s.path, s))) s.path = some s := by
  refine ⟨?_, ?_, dictLookup_unique ss hnodup⟩
  · match ss, hne with
    | s :: rest, _ => rfl
  · apply read_back fsys _ ss hhash
    have hdata : (⟨writeRecord fieldNames ++ writeRows (ss.map rowOf)⟩ : String).data =
        writeRows (fieldNames :: ss.map rowOf) := by
      show writeRecord fieldNames ++ writeRows (ss.map rowOf) = _
      simp [writeRows]
    rw [hdata]
    apply parseCsv_writeRows
    intro r hr
    rcases List.mem_cons.mp hr with heq | hmem
    · subst heq
      exact ⟨by decide, by decide⟩
    · obtain ⟨s, hs, rfl⟩ := List.mem_map.mp hmem
      obtain ⟨hp, hsum, hh⟩ := hcr s hs
      refine ⟨by simp [rowOf], ?_⟩
      intro f hf
      rcases List.mem_cons.mp hf with rfl | hf2
      · exact hp
      rcases List.mem_cons.mp hf2 with rfl | hf3
      · exact hsum
      rcases List.mem_cons.mp hf3 with rfl | hf4
      · exact hh
      · exact absurd hf4 (List.not_mem_nil f)

/-- Witness for C5 at a one-element list. -/
theorem write_read_roundtrip_witness :
    write_summary_csv [⟨"a.py", "a summary", "abc"⟩] none false true =
      .ok (some ⟨writeRecord fieldNames ++
        writeRows ([(⟨"a.py", "a summary", "abc"⟩ : FileSummary)].map rowOf)⟩) ∧
    read_code_summary_csv (fun _ => []) ⟨writeRecord fieldNames ++
        writeRows ([(⟨"a.py", "a summary", "abc"⟩ : FileSummary)].map rowOf)⟩ =
      .ok ([(⟨"a.py", "a summary", "abc"⟩ : FileSummary)].map (fun s => (s.path, s))) ∧
    ∀ s ∈ ([(⟨"a.py", "a summary", "abc"⟩ : FileSummary)] : List FileSummary),
      dictLookup ([(⟨"a.py", "a summary", "abc"⟩ : FileSummary)].map (fun s => (s.path, s)))
        s.path = some s :=
  write_read_roundtrip (fun _ => []) [⟨"a.py", "a summary", "abc"⟩]
    (by decide) (by decide) (by decide) (by decide)

/-! ## Claim C1: the caching loop -/

/-- Constructing a `FileSummary` with an empty hash field fills in the
digest of the file's current bytes. -/
theorem mkFileSummary_empty (p s : String) (bytes : List Nat) :
    mkFileSummary p s "" bytes = ⟨p, s, sha256hex bytes⟩ := by
  unfold mkFileSummary
  rw [if_pos rfl]
  unfold hash_file
  rw [hashLoopAux_eq 65536 (by omega) (bytes.length + 1) bytes [] (by omega)]
  rfl

/-- Every extension in `EXT_MAP` gets a splitter. -/
theorem get_text_splitter_isSome (e : String) (h : (dictGet EXT_MAP e).isSome) :
    ∃ sp, get_text_splitter e EXT_MAP = .ok sp := by
  unfold get_text_splitter
  by_cases h1 : e = ".sas"
  · rw [if_pos h1]; exact ⟨_, rfl⟩
  rw [if_neg h1]
  by_cases h2 : e = ".R"
  · rw [if_pos h2]; exact ⟨_, rfl⟩
  rw [if_neg h2]
  by_cases h3 : e = ".sql"
  · rw [if_pos h3]; exact ⟨_, rfl⟩
  rw [if_neg h3]
  cases hd : dictGet EXT_MAP e with
  | none => rw [hd] at h; exact absurd h (by simp)
  | some lang => exact ⟨_, rfl⟩

/-- Looking a path up in the reconstructed dict finds the image of the
last raw record for that path. -/
theorem dictLookup_map_records (f : (String × String × String) → FileSummary)
    (records : List (String × String × String)) (p : String) :
    dictLookup (records.map (fun r => (r.1, f r))) p =
      (records.reverse.find? (fun r => r.1 = p)).map f := by
  unfold dictLookup
  rw [← List.map_reverse, List.find?_map, Option.map_map]
  rfl

/-- The loop's skip test agrees with the specification-level cache-hit
test, as long as no raw record has an empty hash field. -/
theorem loopSkip_eq_cacheHit (env : Env) (records : List (String × String × String))
    (hhash : ∀ r ∈ records, r.2.2 ≠ "") (p : String) :
    loopSkip (some (records.map (fun r => (r.1, mkFileSummary r.1 r.2.1 r.2.2 (env.fsys r.1)))))
        p ⟨p, "", sha256hex (env.fsys p)⟩ = cacheHit env records p := by
  show (!(records.map (fun r => (r.1, mkFileSummary r.1 r.2.1 r.2.2 (env.fsys r.1)))).isEmpty &&
      (match dictLookup
          (records.map (fun r => (r.1, mkFileSummary r.1 r.2.1 r.2.2 (env.fsys r.1)))) p with
       | some old =>
         old.contents_hash == (⟨p, "", sha256hex (env.fsys p)⟩ : FileSummary).contents_hash
       | none => false)) = cacheHit env records p
  rw [dictLookup_map_records (fun r => mkFileSummary r.1 r.2.1 r.2.2 (env.fsys r.1)) records p]
  unfold cacheHit storedHash
  cases hf : records.reverse.find? (fun r => r.1 = p) with
  | none =>
    cases records with
    | nil => rfl
    | cons q rest => rfl
  | some r =>
    have hmem : r ∈ records := List.mem_reverse.mp (List.mem_of_find?_eq_some hf)
    have hstored : (mkFileSummary r.1 r.2.1 r.2.2 (env.fsys r.1)).contents_hash = r.2.2 := by
      show (if r.2.2 = "" then _ else r.2.2) = r.2.2
      rw [if_neg (hhash r hmem)]
    cases records with
    | nil => exact absurd hmem (List.not_mem_nil r)
    | cons q rest =>
      show (true && ((mkFileSummary r.1 r.2.1 r.2.2 (env.fsys r.1)).contents_hash ==
        sha256hex (env.fsys p))) = _
      rw [Bool.true_and, hstored]
      show (r.2.2 == sha256hex (env.fsys p)) =
        (some r.2.2 == some (sha256hex (env.fsys p)))
      rw [Bool.eq_iff_iff]
      simp only [beq_iff_eq, Option.some.injEq]

/-- The caching loop, started on an existing store carrying the written
header and loaded records with non-empty hash fields: it completes,
appends exactly one row per non-cache-hit path, and collects exactly the
fresh summaries. -/
theorem summariseLoop_spec (env : Env) (records : List (String × String × String))
    (hhash : ∀ r ∈ records, r.2.2 ≠ "") :
    ∀ (paths : List String) (c0 : String) (written0 : List FileSummary),
      (∃ rest, c0.data = writeRecord fieldNames ++ rest) →
      (∀ p ∈ paths, (dictGet EXT_MAP (pySuffix p)).isSome) →
      summariseLoop env
          (some (records.map (fun r => (r.1, mkFileSummary r.1 r.2.1 r.2.2 (env.fsys r.1)))))
          paths (some c0) written0 =
        .ok (some (c0 ++ String.mk (writeRows ((freshSummaries env records paths).map rowOf))),
          written0 ++ freshSummaries env records paths) := by
  intro paths
  induction paths with
  | nil =>
    intro c0 written0 _ _
    show Except.ok (some c0, written0) = _
    simp [freshSummaries, writeRows]
  | cons p ps ih =>
    intro c0 written0 hc0 hsplit
    obtain ⟨sp, hsp⟩ := get_text_splitter_isSome (pySuffix p) (hsplit p (List.mem_cons_self p ps))
    have hps : ∀ q ∈ ps, (dictGet EXT_MAP (pySuffix q)).isSome :=
      fun q hq => hsplit q (List.mem_cons_of_mem p hq)
    simp only [summariseLoop, hsp, mkFileSummary_empty]
    rw [loopSkip_eq_cacheHit env records hhash p]
    by_cases hhit : cacheHit env records p = true
    · rw [if_pos hhit]
      have hfresh : freshSummaries env records (p :: ps) = freshSummaries env records ps := by
        unfold freshSummaries
        rw [List.filter_cons, if_neg (by simp [hhit])]
      rw [hfresh]
      exact ih c0 written0 hc0 hps
    · rw [if_neg hhit]
      have hwrite := safeWrite_existing c0
        [⟨p, (env.llm (env.ftext p)).trim, sha256hex (env.fsys p)⟩]
        (header_head c0 hc0) (by simp)
      simp only [hwrite]
      have hc1 : ∃ rest, (c0 ++ String.mk (writeRows
          ([(⟨p, (env.llm (env.ftext p)).trim, sha256hex (env.fsys p)⟩ : FileSummary)].map
            rowOf))).data = writeRecord fieldNames ++ rest := by
        obtain ⟨rest, hr⟩ := hc0
        exact ⟨rest ++ writeRows ([(⟨p, (env.llm (env.ftext p)).trim,
            sha256hex (env.fsys p)⟩ : FileSummary)].map rowOf),
          by rw [String.data_append, hr, List.append_assoc]⟩
      refine Eq.trans (ih _ _ hc1 hps) ?_
      have hfresh : freshSummaries env records (p :: ps) =
          (⟨p, (env.llm (env.ftext p)).trim, sha256hex (env.fsys p)⟩ : FileSummary) ::
            freshSummaries env records ps := by
        unfold freshSummaries
        rw [List.filter_cons, if_pos (by simp [hhit])]
        rfl
      rw [hfresh]
      show Except.ok _ = Except.ok _
      congr 2
      · rw [String.append_assoc]
        refine congrArg (fun z => some (c0 ++ z)) ?_
        show String.mk (writeRows (List.map rowOf
            [(⟨p, (env.llm (env.ftext p)).trim, sha256hex (env.fsys p)⟩ : FileSummary)]) ++
          writeRows (List.map rowOf (freshSummaries env records ps))) = _
        congr 1
        simp [writeRows]
      · simp

/-- C1 (amended): in a completed run of `get_summaries` over an existing
store — all paths carrying the run's extension, that extension present in
`EXT_MAP`, the store beginning with the written header row, its records
well-formed and, the amendment, every stored hash field non-empty — a
file is skipped (not summarized, no row appended) exactly when its path
appears in the loaded store with a stored hash equal to the digest of the
file's current bytes; every other file is summarized, and exactly one row
per such file is appended to the store, in order. -/
theorem get_summaries_cache (env : Env) (code_paths : List String) (code_ext : String)
    (content : String) (alwaysCheck : Bool)
    (records : List (String × String × String))
    (hsuffix : ∀ p ∈ code_paths, pySuffix p = code_ext)
    (hext : (dictGet EXT_MAP code_ext).isSome)
    (hraw : readRawRecords content = .ok records)
    (hhash : ∀ r ∈ records, r.2.2 ≠ "")
    (hhead : ∃ rest, content.data = writeRecord fieldNames ++ rest) :
    get_summaries env code_paths code_ext (some content) alwaysCheck =
      .ok (some (content ++
          String.mk (writeRows ((freshSummaries env records code_paths).map rowOf))),
        freshSummaries env records code_paths) ∧
    (freshSummaries env records code_paths).map FileSummary.path =
      code_paths.filter
        (fun p => !(storedHash records p == some (sha256hex (env.fsys p)))) := by
  constructor
  · unfold get_summaries
    have hall : code_paths.all (fun p => pySuffix p = code_ext) = true := by
      rw [List.all_eq_true]
      intro p hp
      exact decide_eq_true (hsuffix p hp)
    rw [if_neg (fun hcon => hcon hall)]
    obtain ⟨lang, hlang⟩ := Option.isSome_iff_exists.mp hext
    simp only [hlang]
    have hread : read_code_summary_csv env.fsys content =
        .ok (records.map (fun r => (r.1, mkFileSummary r.1 r.2.1 r.2.2 (env.fsys r.1)))) := by
      unfold read_code_summary_csv
      rw [hraw]
      rfl
    simp only [hread]
    exact summariseLoop_spec env records hhash code_paths content []
      hhead (fun p hp => by rw [hsuffix p hp]; exact hext)
  · unfold freshSummaries cacheHit
    rw [List.map_map]
    have hid : (FileSummary.path ∘ fun p =>
        (⟨p, (env.llm (env.ftext p)).trim, sha256hex (env.fsys p)⟩ : FileSummary)) = id := rfl
    rw [hid, List.map_id]

/-- Witness for C1: a two-file run over a store holding the current digest
for the first file only — the first file is skipped, the second is
summarized and appended. -/
theorem get_summaries_cache_witness :
    get_summaries ⟨fun _ => [65], fun _ => "data x;", fun _ => " S "⟩
        ["/a/f.sas", "/a/g.sas"] ".sas"
        (some "path,summary,contents_hash\r\n/a/f.sas,old summary,559aead08264d5795d3909718cdd05abd49572e84fe55590eef31a88a08fdffd\r\n")
        false =
      .ok (some ("path,summary,contents_hash\r\n/a/f.sas,old summary,559aead08264d5795d3909718cdd05abd49572e84fe55590eef31a88a08fdffd\r\n" ++
          String.mk (writeRows ((freshSummaries ⟨fun _ => [65], fun _ => "data x;", fun _ => " S "⟩
            [("/a/f.sas", "old summary",
              "559aead08264d5795d3909718cdd05abd49572e84fe55590eef31a88a08fdffd")]
            ["/a/f.sas", "/a/g.sas"]).map rowOf))),
        freshSummaries ⟨fun _ => [65], fun _ => "data x;", fun _ => " S "⟩
          [("/a/f.sas", "old summary",
            "559aead08264d5795d3909718cdd05abd49572e84fe55590eef31a88a08fdffd")]
          ["/a/f.sas", "/a/g.sas"]) ∧
    (freshSummaries ⟨fun _ => [65], fun _ => "data x;", fun _ => " S "⟩
        [("/a/f.sas", "old summary",
          "559aead08264d5795d3909718cdd05abd49572e84fe55590eef31a88a08fdffd")]
        ["/a/f.sas", "/a/g.sas"]).map FileSummary.path =
      ["/a/f.sas", "/a/g.sas"].filter
        (fun p => !(storedHash
          [("/a/f.sas", "old summary",
            "559aead08264d5795d3909718cdd05abd49572e84fe55590eef31a88a08fdffd")] p ==
          some (sha256hex ((fun _ => [65]) p)))) :=
  get_summaries_cache ⟨fun _ => [65], fun _ => "data x;", fun _ => " S "⟩
    ["/a/f.sas", "/a/g.sas"] ".sas"
    "path,summary,contents_hash\r\n/a/f.sas,old summary,559aead08264d5795d3909718cdd05abd49572e84fe55590eef31a88a08fdffd\r\n"
    false
    [("/a/f.sas", "old summary",
      "559aead08264d5795d3909718cdd05abd49572e84fe55590eef31a88a08fdffd")]
    (by decide) (by decide) (by rfl) (by decide)
    ⟨("/a/f.sas,old summary,559aead08264d5795d3909718cdd05abd49572e84fe55590eef31a88a08fdffd\r\n").data,
      by decide⟩

set_option maxRecDepth 100000 in
/-- C1 (counterexample to the claim as stated): a store row whose hash
field is empty.  The loader's `FileSummary` constructor re-hashes the
current file, the recomputed hash trivially equals the current digest, and
the file is skipped — the run returns with the store unchanged and nothing
summarized — even though the stored hash (the empty string) is not the
hash of the file's current contents, so "every other file is summarized
and a row for it is written" fails at this input. -/
theorem get_summaries_cache_counterexample :
    get_summaries ⟨fun _ => [65], fun _ => "data x;", fun _ => " S "⟩ ["/a/f.sas"] ".sas"
        (some "path,summary,contents_hash\r\n/a/f.sas,old,\r\n") false =
      .ok (some "path,summary,contents_hash\r\n/a/f.sas,old,\r\n", []) ∧
    readRawRecords "path,summary,contents_hash\r\n/a/f.sas,old,\r\n" =
      .ok [("/a/f.sas", "old", "")] ∧
    storedHash [("/a/f.sas", "old", "")] "/a/f.sas" = some "" ∧
    ("" : String) ≠ sha256hex [65] := by
  refine ⟨rfl, rfl, rfl, by decide⟩

end CodeSummariser
